import Mathlib

/-!
Verification of the gcsfuse-tools FUSE bridge (`src/gcsfuse-go/fuse_bridge.c`)
and of the spec-described filesystem adapter it fronts.

The C bridge is embedded shallowly: C pointer-typed arguments (stat buffers,
file-info tokens, fill buffers) and the ambient mutable world reached through
the Go adapter are abstract type parameters; each exported Go entry point
(`gcs_getattr`, `gcs_readdir`, `gcs_open`, `gcs_read`) is an abstract function
from its arguments and a world to an integer result paired with the resulting
world.  The bridge functions are transcribed from the C source line by line.

The adapter itself (namespace resolver, attribute cache, directory listing
engine, open file table, read engine) is implemented in Go and is not part of
`src/`; the definitions in the second half of this file are modelled from the
specification and are marked as such in their doc comments.
-/

/-- The type of the FUSE directory-fill callback `fuse_fill_dir_t`:
`int (*)(void *buf, const char *name, const struct stat *stbuf, off_t off,
enum fuse_fill_dir_flags flags)`.  The fill buffer is the abstract type `β`,
the stat pointer is `Option σ` (a null pointer is `none`), the offset is an
integer, and the fill flags are a natural number (the C enum value). -/
def FillDir (σ β : Type) : Type :=
  β → String → Option σ → Int → Nat → Int

/-- The enum value `FUSE_FILL_DIR_PLUS` (preloaded-attributes flag) of
`enum fuse_fill_dir_flags` in the fuse3 headers; the plain (lazy) mode is 0. -/
def FUSE_FILL_DIR_PLUS : Nat := 2

/-- The four Go-exported adapter entry points that `_cgo_export.h` declares and
the C bridge calls.  Each is abstract: given its arguments and a world `ω`, it
produces the integer result returned to FUSE together with the possibly
modified world (the Go side may mutate stat buffers, fill buffers and its own
caches; all of that is folded into `ω`, `σ`, `β`, `φ`). -/
structure GoAdapter (σ φ β ω : Type) where
  gcs_getattr : String → σ → φ → ω → Int × ω
  gcs_readdir : String → β → FillDir σ β → Int → φ → Nat → ω → Int × ω
  gcs_open : String → φ → ω → Int × ω
  gcs_read : String → β → Nat → Int → φ → ω → Int × ω

/-- `helper_fill_dir` from `fuse_bridge.c`:
`return filler(buf, name, stbuf, off, 0);` — it forwards its arguments to the
kernel-supplied filler with the fill-flags argument fixed to the literal 0. -/
def helper_fill_dir {σ β : Type} (filler : FillDir σ β) (buf : β)
    (name : String) (stbuf : Option σ) (off : Int) : Int :=
  filler buf name stbuf off 0

/-- `c_gcs_getattr` from `fuse_bridge.c`:
`return gcs_getattr((char*)path, stbuf, fi);` — the `(char*)` cast changes
only the C type of the pointer, not its value, so it is the identity here. -/
def c_gcs_getattr {σ φ β ω : Type} (A : GoAdapter σ φ β ω)
    (path : String) (stbuf : σ) (fi : φ) (w : ω) : Int × ω :=
  A.gcs_getattr path stbuf fi w

/-- `c_gcs_readdir` from `fuse_bridge.c`:
`return gcs_readdir((char*)path, buf, filler, offset, fi, flags);`. -/
def c_gcs_readdir {σ φ β ω : Type} (A : GoAdapter σ φ β ω)
    (path : String) (buf : β) (filler : FillDir σ β) (offset : Int)
    (fi : φ) (flags : Nat) (w : ω) : Int × ω :=
  A.gcs_readdir path buf filler offset fi flags w

/-- `c_gcs_open` from `fuse_bridge.c`:
`return gcs_open((char*)path, fi);`. -/
def c_gcs_open {σ φ β ω : Type} (A : GoAdapter σ φ β ω)
    (path : String) (fi : φ) (w : ω) : Int × ω :=
  A.gcs_open path fi w

/-- `c_gcs_read` from `fuse_bridge.c`:
`return gcs_read((char*)path, buf, size, offset, fi);`. -/
def c_gcs_read {σ φ β ω : Type} (A : GoAdapter σ φ β ω)
    (path : String) (buf : β) (size : Nat) (offset : Int) (fi : φ)
    (w : ω) : Int × ω :=
  A.gcs_read path buf size offset fi w

/-- The fuse3 `struct fuse_operations` vtable.  C designated-initializer
semantics zero-initialize every unnamed member, so each callback slot is an
`Option` defaulting to `none` (a null function pointer).  The four slots the
bridge populates carry the bridge functions' types; the remaining slots are
never populated by this bridge, so their precise signatures are irrelevant and
they are modelled as `Option Unit`.  Field order follows the fuse3 header.
`open` is a Lean keyword, so that field is spelled `open'`. -/
structure fuse_operations (σ φ β ω : Type) where
  getattr : Option (String → σ → φ → ω → Int × ω) := none
  readlink : Option Unit := none
  mknod : Option Unit := none
  mkdir : Option Unit := none
  unlink : Option Unit := none
  rmdir : Option Unit := none
  symlink : Option Unit := none
  rename : Option Unit := none
  link : Option Unit := none
  chmod : Option Unit := none
  chown : Option Unit := none
  truncate : Option Unit := none
  open' : Option (String → φ → ω → Int × ω) := none
  read : Option (String → β → Nat → Int → φ → ω → Int × ω) := none
  write : Option Unit := none
  statfs : Option Unit := none
  flush : Option Unit := none
  release : Option Unit := none
  fsync : Option Unit := none
  setxattr : Option Unit := none
  getxattr : Option Unit := none
  listxattr : Option Unit := none
  removexattr : Option Unit := none
  opendir : Option Unit := none
  readdir : Option (String → β → FillDir σ β → Int → φ → Nat → ω → Int × ω) := none
  releasedir : Option Unit := none
  fsyncdir : Option Unit := none
  init' : Option Unit := none
  destroy : Option Unit := none
  access : Option Unit := none
  create : Option Unit := none
  lock : Option Unit := none
  utimens : Option Unit := none
  bmap : Option Unit := none
  ioctl : Option Unit := none
  poll : Option Unit := none
  write_buf : Option Unit := none
  read_buf : Option Unit := none
  flock : Option Unit := none
  fallocate : Option Unit := none
  copy_file_range : Option Unit := none
  lseek : Option Unit := none

/-- `static struct fuse_operations gcs_oper` from `fuse_bridge.c`: the
designated initializer names exactly `.getattr`, `.readdir`, `.open`, `.read`;
every other member is zero-initialized (a null callback, here `none`). -/
def gcs_oper {σ φ β ω : Type} (A : GoAdapter σ φ β ω) :
    fuse_operations σ φ β ω :=
  { getattr := some (c_gcs_getattr A)
    readdir := some (c_gcs_readdir A)
    open' := some (c_gcs_open A)
    read := some (c_gcs_read A) }

/-- `start_fuse` from `fuse_bridge.c`:
`return fuse_main(argc, argv, &gcs_oper, NULL);`.  `fuse_main` is the external
FUSE main loop, modelled as an abstract function of the argument count, the
argument vector, the operation table and the private-data pointer
(`Option Unit`, with `NULL` being `none`). -/
def start_fuse {σ φ β ω : Type} (A : GoAdapter σ φ β ω)
    (fuse_main : Int → List String → fuse_operations σ φ β ω → Option Unit → Int)
    (argc : Int) (argv : List String) : Int :=
  fuse_main argc argv (gcs_oper A) none

/-- Claim C1: each of the four bridge callbacks routes the call to the
namesake adapter entry point, forwarding every argument unchanged and
performing no other computation or state mutation: on every world `w` the
bridge function is observationally equal (result and resulting world) to the
adapter function it fronts. -/
theorem bridge_is_pure_glue {σ φ β ω : Type} (A : GoAdapter σ φ β ω)
    (path : String) (stbuf : σ) (fi : φ) (buf : β) (filler : FillDir σ β)
    (offset : Int) (flags : Nat) (size : Nat) (w : ω) :
    c_gcs_getattr A path stbuf fi w = A.gcs_getattr path stbuf fi w ∧
    c_gcs_readdir A path buf filler offset fi flags w =
      A.gcs_readdir path buf filler offset fi flags w ∧
    c_gcs_open A path fi w = A.gcs_open path fi w ∧
    c_gcs_read A path buf size offset fi w =
      A.gcs_read path buf size offset fi w :=
  ⟨rfl, rfl, rfl, rfl⟩

/-- Claim C2: the registered operation table populates exactly the four
callbacks getattr, readdir, open and read, and leaves every other operation —
in particular every write-intent, symlink and extended-attribute operation —
unset (`none`), so none of them can ever be dispatched into the adapter
through this bridge. -/
theorem gcs_oper_registers_exactly_four {σ φ β ω : Type}
    (A : GoAdapter σ φ β ω) :
    (gcs_oper A).getattr = some (c_gcs_getattr A) ∧
    (gcs_oper A).readdir = some (c_gcs_readdir A) ∧
    (gcs_oper A).open' = some (c_gcs_open A) ∧
    (gcs_oper A).read = some (c_gcs_read A) ∧
    (gcs_oper A).readlink = none ∧
    (gcs_oper A).mknod = none ∧
    (gcs_oper A).mkdir = none ∧
    (gcs_oper A).unlink = none ∧
    (gcs_oper A).rmdir = none ∧
    (gcs_oper A).symlink = none ∧
    (gcs_oper A).rename = none ∧
    (gcs_oper A).link = none ∧
    (gcs_oper A).chmod = none ∧
    (gcs_oper A).chown = none ∧
    (gcs_oper A).truncate = none ∧
    (gcs_oper A).write = none ∧
    (gcs_oper A).statfs = none ∧
    (gcs_oper A).flush = none ∧
    (gcs_oper A).release = none ∧
    (gcs_oper A).setxattr = none ∧
    (gcs_oper A).getxattr = none ∧
    (gcs_oper A).listxattr = none ∧
    (gcs_oper A).removexattr = none ∧
    (gcs_oper A).opendir = none ∧
    (gcs_oper A).releasedir = none ∧
    (gcs_oper A).fsyncdir = none ∧
    (gcs_oper A).fsync = none ∧
    (gcs_oper A).init' = none ∧
    (gcs_oper A).destroy = none ∧
    (gcs_oper A).access = none ∧
    (gcs_oper A).create = none ∧
    (gcs_oper A).lock = none ∧
    (gcs_oper A).utimens = none ∧
    (gcs_oper A).bmap = none ∧
    (gcs_oper A).ioctl = none ∧
    (gcs_oper A).poll = none ∧
    (gcs_oper A).write_buf = none ∧
    (gcs_oper A).read_buf = none ∧
    (gcs_oper A).flock = none ∧
    (gcs_oper A).fallocate = none ∧
    (gcs_oper A).copy_file_range = none ∧
    (gcs_oper A).lseek = none := by
  repeat' apply And.intro
  all_goals rfl

/-- Claim C3: for every invocation of any of the four callbacks, the integer
result delivered back to the dispatch loop equals exactly the value the
corresponding adapter function returned — no translation, masking or retry —
and, the bridge functions being total, every call path yields a definite
integer. -/
theorem bridge_forwards_result_code {σ φ β ω : Type} (A : GoAdapter σ φ β ω)
    (path : String) (stbuf : σ) (fi : φ) (buf : β) (filler : FillDir σ β)
    (offset : Int) (flags : Nat) (size : Nat) (w : ω) :
    (c_gcs_getattr A path stbuf fi w).1 = (A.gcs_getattr path stbuf fi w).1 ∧
    (c_gcs_readdir A path buf filler offset fi flags w).1 =
      (A.gcs_readdir path buf filler offset fi flags w).1 ∧
    (c_gcs_open A path fi w).1 = (A.gcs_open path fi w).1 ∧
    (c_gcs_read A path buf size offset fi w).1 =
      (A.gcs_read path buf size offset fi w).1 :=
  ⟨rfl, rfl, rfl, rfl⟩

/-- Claim C4: `helper_fill_dir` invokes the kernel-supplied filler with the
given buffer, name, stat pointer and offset unchanged, with the fill-flags
argument fixed to 0 — which is not the preloaded-attributes flag
`FUSE_FILL_DIR_PLUS` — and returns the filler's return value unchanged. -/
theorem helper_fill_dir_lazy {σ β : Type} (filler : FillDir σ β) (buf : β)
    (name : String) (stbuf : Option σ) (off : Int) :
    helper_fill_dir filler buf name stbuf off = filler buf name stbuf off 0 ∧
    (0 : Nat) ≠ FUSE_FILL_DIR_PLUS :=
  ⟨rfl, by decide⟩

/-- Claim C10: `start_fuse argc argv` returns exactly
`fuse_main argc argv (gcs_oper) none`: a null private-data pointer is passed
and `argv` reaches the FUSE main loop without any parsing, filtering or
modification. -/
theorem start_fuse_calls_fuse_main {σ φ β ω : Type} (A : GoAdapter σ φ β ω)
    (fuse_main : Int → List String → fuse_operations σ φ β ω → Option Unit → Int)
    (argc : Int) (argv : List String) :
    start_fuse A fuse_main argc argv = fuse_main argc argv (gcs_oper A) none :=
  rfl

/-!
The remaining claims concern the filesystem adapter (namespace resolver,
attribute cache, directory listing engine, open file table, read engine).
That code is implemented in Go and is not part of `src/` — the bridge only
declares and calls its exported entry points — so the definitions below are
modelled from the specification (§3–§4.6), as their doc comments state.

A path or object key is modelled as its list of `/`-separated segments
(`Key`): the spec's Path invariant (normalized, no empty segments, no
trailing slash) makes the segment list a faithful, one-to-one presentation of
the flat bucket-native name; the root path is the empty segment list.
-/

/-- Modelled from the spec (§3 Data Model, Path/Object Key): a path or flat
object key presented as its list of `/`-separated name segments; root (and
the empty key) is `[]`. -/
abbrev Key : Type := List String

/-- Modelled from the spec (§3, §6): a stored object — its byte content and
its modification time, the metadata the store reports for it. -/
structure Obj where
  data : List Nat
  mtime : Nat
deriving DecidableEq, Repr

/-- Modelled from the spec (§1): the remote bucket, a flat key/value
namespace — a finite association of object keys to objects. -/
abbrev Bucket : Type := List (Key × Obj)

/-- Modelled from the spec (§6): `headObject(key) -> size, mtime, exists` —
the exact-key metadata lookup against the bucket. -/
def headObject (b : Bucket) (k : Key) : Option Obj :=
  (b.find? (fun kv => decide (kv.1 = k))).map (fun kv => kv.2)

/-- Modelled from the spec (§6): `getObjectRange(key, start, end) -> bytes` —
the ranged byte-fetch for the half-open interval `[start, stop)` of the
object's content. -/
def getObjectRange (b : Bucket) (k : Key) (start stop : Nat) : List Nat :=
  match headObject b k with
  | some o => (o.data.drop start).take (stop - start)
  | none => []

/-- Modelled from the spec (§3 File Handle, §4.4): a handle records the
backing object key and the byte size known at open time. -/
structure Handle where
  key : Key
  size : Nat
deriving DecidableEq, Repr

/-- Modelled from the spec (§4.5 Read Engine): `read(handle, offset, length)`
clamps the requested range to `[offset, min(offset+length, file size))` and
issues a single ranged byte-fetch to the store for the clamped interval; if
`offset ≥ size` it returns zero bytes (end-of-file, not an error). -/
def rangeRead (b : Bucket) (h : Handle) (offset len : Nat) : List Nat :=
  if h.size ≤ offset then []
  else getObjectRange b h.key offset (min (offset + len) h.size)

/-- Modelled from the spec (§8 Round-trip): a sequence of `read` calls at
increasing, contiguous offsets — each call reads the next `l` bytes and the
following call resumes where it left off. -/
def seqRead (b : Bucket) (h : Handle) : Nat → List Nat → List Nat
  | _, [] => []
  | off, l :: ls => rangeRead b h off l ++ seqRead b h (off + l) ls

/-- When the key is present, `getObjectRange` is the take/drop slice of the
object's content. -/
theorem getObjectRange_eq (b : Bucket) (k : Key) (o : Obj)
    (hk : headObject b k = some o) (start stop : Nat) :
    getObjectRange b k start stop = (o.data.drop start).take (stop - start) := by
  unfold getObjectRange
  rw [hk]

/-- Claim C5: for every open handle with known file size, every offset and
every requested length `N > 0`, `read` returns exactly the bytes of the
clamped interval `[offset, min(offset+N, size))`; when `offset ≥ size` it
returns zero bytes (a success value, not an error — the model is total), and
when `offset + N > size` it returns exactly the bytes up to `size`. -/
theorem rangeRead_clamps (b : Bucket) (h : Handle) (o : Obj)
    (offset N : Nat) (hk : headObject b h.key = some o)
    (hs : h.size = o.data.length) (hN : 0 < N) :
    rangeRead b h offset N = (o.data.drop offset).take (min N (h.size - offset)) ∧
    (h.size ≤ offset → rangeRead b h offset N = []) ∧
    (h.size < offset + N → rangeRead b h offset N = o.data.drop offset) := by
  have hGO := getObjectRange_eq b h.key o hk
  refine ⟨?_, ?_, ?_⟩
  · unfold rangeRead
    rw [hGO]
    split
    · next hle =>
      rw [Nat.sub_eq_zero_of_le hle]
      simp
    · next hlt =>
      rcases Nat.le_total (offset + N) h.size with hc | hc
      · rw [min_eq_left hc, min_eq_left (by omega : N ≤ h.size - offset)]
        congr 1
        omega
      · rw [min_eq_right hc, min_eq_right (by omega : h.size - offset ≤ N)]
  · intro hle
    simp [rangeRead, hle]
  · intro hlt
    unfold rangeRead
    rw [hGO]
    split
    · next hle =>
      refine (List.drop_eq_nil_of_le ?_).symm
      omega
    · next hgt =>
      rw [min_eq_right (by omega : h.size ≤ offset + N)]
      refine List.take_of_length_le ?_
      rw [List.length_drop]
      omega

/-- Witness for C5: a concrete three-byte object read at offset 1 with
requested length 5. -/
theorem rangeRead_clamps_witness :
    (0 : Nat) < 5 ∧
    (rangeRead [((["a"] : Key), Obj.mk [10, 20, 30] 7)] (Handle.mk ["a"] 3) 1 5 =
        (([10, 20, 30] : List Nat).drop 1).take (min 5 (3 - 1)) ∧
      ((3 : Nat) ≤ 1 →
        rangeRead [((["a"] : Key), Obj.mk [10, 20, 30] 7)] (Handle.mk ["a"] 3) 1 5 = []) ∧
      ((3 : Nat) < 1 + 5 →
        rangeRead [((["a"] : Key), Obj.mk [10, 20, 30] 7)] (Handle.mk ["a"] 3) 1 5 =
          ([10, 20, 30] : List Nat).drop 1)) :=
  ⟨by decide,
    rangeRead_clamps [((["a"] : Key), Obj.mk [10, 20, 30] 7)] (Handle.mk ["a"] 3)
      (Obj.mk [10, 20, 30] 7) 1 5 (by decide) (by decide) (by decide)⟩

/-- Sequential contiguous reads starting at `off` whose lengths cover the
rest of the file reproduce exactly the object's bytes from `off` on. -/
theorem seqRead_covers_drop (b : Bucket) (h : Handle) (o : Obj)
    (hk : headObject b h.key = some o) (hs : h.size = o.data.length) :
    ∀ (lens : List Nat) (off : Nat), h.size ≤ off + lens.sum →
      seqRead b h off lens = o.data.drop off := by
  intro lens
  induction lens with
  | nil =>
    intro off hcov
    simp only [List.sum_nil, Nat.add_zero] at hcov
    simp only [seqRead]
    refine (List.drop_eq_nil_of_le ?_).symm
    omega
  | cons l ls ih =>
    intro off hcov
    simp only [List.sum_cons] at hcov
    show rangeRead b h off l ++ seqRead b h (off + l) ls = o.data.drop off
    rw [ih (off + l) (by omega)]
    by_cases hoff : h.size ≤ off
    · have h1 : rangeRead b h off l = [] := by simp [rangeRead, hoff]
      have h2 : o.data.drop off = [] := List.drop_eq_nil_of_le (by omega)
      have h3 : o.data.drop (off + l) = [] := List.drop_eq_nil_of_le (by omega)
      rw [h1, h2, h3]
      rfl
    · have hlt : off < h.size := Nat.lt_of_not_le hoff
      have h1 : rangeRead b h off l =
          (o.data.drop off).take (min (off + l) h.size - off) := by
        unfold rangeRead
        rw [getObjectRange_eq b h.key o hk, if_neg hoff]
      rw [h1]
      by_cases hfit : off + l ≤ h.size
      · have hmin : min (off + l) h.size - off = l := by
          rw [min_eq_left hfit]
          omega
        rw [hmin, ← List.drop_drop]
        exact List.take_append_drop l (o.data.drop off)
      · have hmin : min (off + l) h.size - off = h.size - off := by
          rw [min_eq_right (by omega : h.size ≤ off + l)]
        rw [hmin]
        have htake : (o.data.drop off).take (h.size - off) = o.data.drop off := by
          refine List.take_of_length_le ?_
          rw [List.length_drop]
          omega
        have hnil : o.data.drop (off + l) = [] :=
          List.drop_eq_nil_of_le (by omega)
        rw [htake, hnil, List.append_nil]

/-- Claim C6: reading the full byte range `[0, size)` of a handle through any
decomposition into contiguous reads at increasing offsets whose lengths cover
the file concatenates to exactly the bytes of a single full-range fetch of
the object from the store. -/
theorem seqRead_roundtrip (b : Bucket) (h : Handle) (o : Obj) (lens : List Nat)
    (hk : headObject b h.key = some o) (hs : h.size = o.data.length)
    (hcov : h.size ≤ lens.sum) :
    seqRead b h 0 lens = getObjectRange b h.key 0 h.size := by
  rw [seqRead_covers_drop b h o hk hs lens 0 (by omega)]
  rw [getObjectRange_eq b h.key o hk]
  simp only [List.drop_zero, Nat.sub_zero]
  exact (List.take_of_length_le (by omega)).symm

/-- Witness for C6: a five-byte object read as chunks of 2, 2 and 3 bytes
(the last read clamped at end-of-file) equals the single full-range fetch. -/
theorem seqRead_roundtrip_witness :
    headObject [((["a"] : Key), Obj.mk [1, 2, 3, 4, 5] 0)] ["a"] =
        some (Obj.mk [1, 2, 3, 4, 5] 0) ∧
    (5 : Nat) ≤ ([2, 2, 3] : List Nat).sum ∧
    seqRead [((["a"] : Key), Obj.mk [1, 2, 3, 4, 5] 0)] (Handle.mk ["a"] 5) 0 [2, 2, 3] =
      getObjectRange [((["a"] : Key), Obj.mk [1, 2, 3, 4, 5] 0)] ["a"] 0 5 :=
  ⟨by decide, by decide,
    seqRead_roundtrip [((["a"] : Key), Obj.mk [1, 2, 3, 4, 5] 0)] (Handle.mk ["a"] 5)
      (Obj.mk [1, 2, 3, 4, 5] 0) [2, 2, 3] (by decide) (by decide) (by decide)⟩

/-- Modelled from the spec (§3): the node-kind tag over File and Directory. -/
inductive NodeKind : Type
  | File : NodeKind
  | Directory : NodeKind
deriving DecidableEq, Repr

/-- `underDir d k` holds when key `k` lies strictly under the directory named
by the segments `d`: `d` is a proper initial segment of `k` (in flat-key
terms, `d ++ "/"` is a strict prefix of `k`). -/
def underDir (d k : Key) : Bool :=
  d.isPrefixOf k && decide (d.length < k.length)

/-- Modelled from the spec (§4.1): the outcome of path resolution — a File
with its object, a (synthetic or explicit) Directory, or Not-Found. -/
inductive Resolved : Type
  | file : Obj → Resolved
  | directory : Resolved
  | notFound : Resolved
deriving DecidableEq, Repr

/-- Modelled from the spec (§4.1 Namespace Resolver): strip the path to a
candidate object key and look it up exactly; if found the path is a File
(exact match wins).  Otherwise, if any key lies under the path taken as a
directory, the path is an implicit Directory.  Root is always a Directory.
If neither exists, resolution fails Not-Found. -/
def resolve (b : Bucket) (p : Key) : Resolved :=
  if p = [] then Resolved.directory
  else
    match headObject b p with
    | some o => Resolved.file o
    | none =>
      if b.any (fun kv => underDir p kv.1) then Resolved.directory
      else Resolved.notFound

/-- Claim C9: when the bucket contains both an object at exactly the
stripped key `p` and some other key strictly under `p` taken as a directory,
`resolve` yields File — the exact-key match takes precedence over the
prefix/implicit-directory match, so a file and a directory never silently
collide at the same path. -/
theorem resolve_exact_key_wins (b : Bucket) (p : Key) (o : Obj)
    (hne : p ≠ []) (hk : headObject b p = some o)
    (hdir : ∃ kv ∈ b, underDir p kv.1 = true) :
    resolve b p = Resolved.file o := by
  unfold resolve
  rw [if_neg hne, hk]

/-- Witness for C9: the bucket holds an object at key `a` and another key
`a/b`, and resolution of path `/a` yields the File. -/
theorem resolve_exact_key_wins_witness :
    ((["a"] : Key) ≠ []) ∧
    headObject [((["a"] : Key), Obj.mk [1] 0), ((["a", "b"] : Key), Obj.mk [2] 0)] ["a"] =
      some (Obj.mk [1] 0) ∧
    (∃ kv ∈ [((["a"] : Key), Obj.mk [1] 0), ((["a", "b"] : Key), Obj.mk [2] 0)],
      underDir ["a"] kv.1 = true) ∧
    resolve [((["a"] : Key), Obj.mk [1] 0), ((["a", "b"] : Key), Obj.mk [2] 0)] ["a"] =
      Resolved.file (Obj.mk [1] 0) :=
  ⟨by decide, by decide,
    ⟨(["a", "b"], Obj.mk [2] 0), by decide, by decide⟩,
    resolve_exact_key_wins _ ["a"] (Obj.mk [1] 0) (by decide) (by decide)
      ⟨(["a", "b"], Obj.mk [2] 0), by decide, by decide⟩⟩

/-- Modelled from the spec (§3): synthesized node attributes — kind, byte
size (files only, 0 for directories) and modification time. -/
structure NodeAttrs : Type where
  kind : NodeKind
  size : Nat
  mtime : Nat
deriving DecidableEq, Repr

/-- Modelled from the spec (§6): mount-time configuration relevant to this
core — the attribute cache TTL and the synthetic epoch used as directory
mtime. -/
structure Config : Type where
  ttl : Nat
  epoch : Nat
deriving DecidableEq, Repr

/-- Modelled from the spec (§4.2): File attributes are taken from the
store's object metadata (size from the content length, mtime as reported). -/
def fileAttrs (o : Obj) : NodeAttrs :=
  NodeAttrs.mk NodeKind.File o.data.length o.mtime

/-- Modelled from the spec (§4.2): directory size and mtime are fixed
synthetic values — size 0, mtime the configured epoch. -/
def dirAttrs (cfg : Config) : NodeAttrs :=
  NodeAttrs.mk NodeKind.Directory 0 cfg.epoch

/-- Modelled from the spec (§3): the attribute cache — path to
(Attributes, insertion time), most recent entry first. -/
abbrev AttrCache : Type := List (Key × NodeAttrs × Nat)

/-- Modelled from the spec (§3, §4.2): cache lookup at time `now` — an entry
older than the configured TTL is treated as absent. -/
def cacheGet (cfg : Config) (cache : AttrCache) (now : Nat) (p : Key) :
    Option NodeAttrs :=
  match cache.find? (fun e => decide (e.1 = p)) with
  | some e => if now - e.2.2 ≤ cfg.ttl then some e.2.1 else none
  | none => none

/-- Modelled from the spec (§4.1, §4.2): resolution plus metadata fetch,
paired with the number of remote store calls it issued (one exact-key
metadata lookup, plus one bounded prefix listing when the exact key is
absent; root needs no remote call). -/
def resolveCount (cfg : Config) (b : Bucket) (p : Key) :
    Option NodeAttrs × Nat :=
  if p = [] then (some (dirAttrs cfg), 0)
  else
    match headObject b p with
    | some o => (some (fileAttrs o), 1)
    | none =>
      if b.any (fun kv => underDir p kv.1) then (some (dirAttrs cfg), 2)
      else (none, 2)

/-- Modelled from the spec (§4.2, §4.6 getattr): consult the cache first; on
hit return with no remote call; on miss or expiry resolve and fetch, then
populate the cache.  Returns the attributes (or miss), the resulting cache,
and the number of remote store calls this invocation issued. -/
def getattrOnce (cfg : Config) (b : Bucket) (cache : AttrCache) (now : Nat)
    (p : Key) : Option NodeAttrs × AttrCache × Nat :=
  match cacheGet cfg cache now p with
  | some a => (some a, cache, 0)
  | none =>
    match resolveCount cfg b p with
    | (some a, n) => (some a, (p, a, now) :: cache, n)
    | (none, n) => (none, cache, n)

/-- Claim C7: after a first `getattr(p)` that resolved `p` remotely and
populated the cache at time `t0`, every repeated `getattr(p)` at a time `t1`
within the configured TTL returns the identical attribute record, leaves the
cache unchanged (so the same holds for each further repetition), and issues
zero additional remote store calls. -/
theorem getattr_cached_idempotent (cfg : Config) (b : Bucket)
    (cache0 : AttrCache) (p : Key) (t0 t1 : Nat) (a : NodeAttrs)
    (c1 : AttrCache) (n1 : Nat)
    (hmiss : cacheGet cfg cache0 t0 p = none)
    (hfirst : getattrOnce cfg b cache0 t0 p = (some a, c1, n1))
    (h01 : t0 ≤ t1) (httl : t1 - t0 ≤ cfg.ttl) :
    getattrOnce cfg b c1 t1 p = (some a, c1, 0) := by
  unfold getattrOnce at hfirst
  rw [hmiss] at hfirst
  rcases hrc : resolveCount cfg b p with ⟨oa, n⟩
  rw [hrc] at hfirst
  cases oa with
  | none => simp at hfirst
  | some a' =>
    simp only [Prod.mk.injEq, Option.some.injEq] at hfirst
    obtain ⟨ha, hc1, hn⟩ := hfirst
    have hget : cacheGet cfg c1 t1 p = some a := by
      rw [← hc1, ha]
      unfold cacheGet
      rw [List.find?_cons_of_pos _ (by simp)]
      simp [httl]
    unfold getattrOnce
    rw [hget]

/-- Witness for C7: a one-object bucket, an empty cache, first call at time 0,
repeat at time 5 with TTL 10. -/
theorem getattr_cached_idempotent_witness :
    cacheGet (Config.mk 10 0) [] 0 ["a"] = none ∧
    getattrOnce (Config.mk 10 0) [((["a"] : Key), Obj.mk [1, 2] 3)] [] 0 ["a"] =
      (some (NodeAttrs.mk NodeKind.File 2 3),
        [((["a"] : Key), NodeAttrs.mk NodeKind.File 2 3, 0)], 1) ∧
    (0 : Nat) ≤ 5 ∧ (5 : Nat) - 0 ≤ (Config.mk 10 0).ttl ∧
    getattrOnce (Config.mk 10 0) [((["a"] : Key), Obj.mk [1, 2] 3)]
        [((["a"] : Key), NodeAttrs.mk NodeKind.File 2 3, 0)] 5 ["a"] =
      (some (NodeAttrs.mk NodeKind.File 2 3),
        [((["a"] : Key), NodeAttrs.mk NodeKind.File 2 3, 0)], 0) :=
  ⟨by decide, by decide, by decide, by decide,
    getattr_cached_idempotent (Config.mk 10 0) [((["a"] : Key), Obj.mk [1, 2] 3)]
      [] ["a"] 0 5 (NodeAttrs.mk NodeKind.File 2 3)
      [((["a"] : Key), NodeAttrs.mk NodeKind.File 2 3, 0)] 1
      (by decide) (by decide) (by decide) (by decide)⟩

/-- Boolean lexicographic order on child names (String order is
lexicographic by character). -/
def strLe (x y : String) : Bool :=
  decide (x ≤ y)

/-- Modelled from the spec (§4.3): the immediate child of directory `p` that
key `k` contributes — the first segment of `k` past `p` when `k` lies under
`p`, and nothing otherwise. -/
def childName (p k : Key) : Option String :=
  if underDir p k then (k.drop p.length).head? else none

/-- Modelled from the spec (§4.3): the deduplicated child names the prefix
listing of `p + "/"` with the path-separator delimiter yields — each key
under `p` contributes its first segment past `p`, and a subdirectory shared
by many keys appears once. -/
def childNames (b : Bucket) (p : Key) : List String :=
  (b.filterMap (fun kv => childName p kv.1)).dedup

/-- Modelled from the spec (§4.3): a child is a subdirectory (a common
prefix of the delimiter listing) when some key lies strictly under it. -/
def isDirChild (b : Bucket) (p : Key) (n : String) : Bool :=
  b.any (fun kv => underDir (p ++ [n]) kv.1)

/-- Modelled from the spec (§4.3 Directory Listing Engine): `listChildren`
produces the deduplicated child entries in stable lexicographic order by
child name, each tagged Directory when it is a common prefix and File when it
is a direct object key. -/
def listChildren (b : Bucket) (p : Key) : List (String × NodeKind) :=
  ((childNames b p).mergeSort strLe).map
    (fun n => (n, if isDirChild b p n then NodeKind.Directory else NodeKind.File))

/-- `strLe` is transitive. -/
theorem strLe_trans :
    ∀ a b c : String, strLe a b = true → strLe b c = true → strLe a c = true := by
  intro a b c hab hbc
  unfold strLe at hab hbc ⊢
  rw [decide_eq_true_iff] at hab hbc ⊢
  exact le_trans hab hbc

/-- `strLe` is total. -/
theorem strLe_total : ∀ a b : String, (strLe a b || strLe b a) = true := by
  intro a b
  unfold strLe
  rw [Bool.or_eq_true, decide_eq_true_iff, decide_eq_true_iff]
  exact le_total a b

/-- A key strictly under the subdirectory `d` of `p` contributes exactly the
child name `d` to the listing of `p`. -/
theorem childName_of_underDir (p : Key) (d : String) (k : Key)
    (h : underDir (p ++ [d]) k = true) : childName p k = some d := by
  unfold underDir at h
  rw [Bool.and_eq_true, decide_eq_true_iff] at h
  obtain ⟨hpre, hlen⟩ := h
  rw [List.isPrefixOf_iff_prefix] at hpre
  obtain ⟨t, ht⟩ := hpre
  subst ht
  have hu : underDir p ((p ++ [d]) ++ t) = true := by
    unfold underDir
    rw [Bool.and_eq_true, decide_eq_true_iff]
    constructor
    · rw [List.isPrefixOf_iff_prefix]
      exact (List.prefix_append p [d]).trans (List.prefix_append (p ++ [d]) t)
    · simp [List.length_append]
  unfold childName
  rw [if_pos hu, List.append_assoc, List.drop_left]
  rfl

/-- Claim C8: whenever two distinct keys lie under the subdirectory `d` of
path `p`, the listing of `p` contains the entry `(d, Directory)` exactly
once — however many keys share that prefix — and the whole entry sequence is
in lexicographic order by child name (and, `listChildren` being a function of
the bucket and path alone, identical across repeated calls). -/
theorem listChildren_dir_once_sorted (b : Bucket) (p : Key) (d : String)
    (e1 e2 : Key × Obj) (h1 : e1 ∈ b) (h2 : e2 ∈ b) (hne : e1.1 ≠ e2.1)
    (hp1 : underDir (p ++ [d]) e1.1 = true)
    (hp2 : underDir (p ++ [d]) e2.1 = true) :
    @List.count (String × NodeKind) instBEqOfDecidableEq
      (d, NodeKind.Directory) (listChildren b p) = 1 ∧
    (listChildren b p).Pairwise (fun x y => x.1 ≤ y.1) := by
  have hd : isDirChild b p d = true := by
    unfold isDirChild
    rw [List.any_eq_true]
    exact ⟨e1, h1, hp1⟩
  have hmemdedup : d ∈ childNames b p := by
    unfold childNames
    rw [List.mem_dedup, List.mem_filterMap]
    exact ⟨e1, h1, childName_of_underDir p d e1.1 hp1⟩
  have hperm : ((childNames b p).mergeSort strLe).Perm (childNames b p) :=
    List.mergeSort_perm _ strLe
  have hnod : ((childNames b p).mergeSort strLe).Nodup :=
    hperm.symm.nodup (List.nodup_dedup _)
  have hmem : d ∈ (childNames b p).mergeSort strLe := hperm.mem_iff.mpr hmemdedup
  constructor
  · unfold listChildren
    have hinj : Function.Injective
        (fun n : String =>
          (n, if isDirChild b p n then NodeKind.Directory else NodeKind.File)) := by
      intro x y hxy
      exact congrArg Prod.fst hxy
    have hmemmap : (d, NodeKind.Directory) ∈
        ((childNames b p).mergeSort strLe).map
          (fun n =>
            (n, if isDirChild b p n then NodeKind.Directory else NodeKind.File)) := by
      have hfd := List.mem_map_of_mem
        (fun n : String =>
          (n, if isDirChild b p n then NodeKind.Directory else NodeKind.File)) hmem
      simpa [hd] using hfd
    exact List.count_eq_one_of_mem (List.Nodup.map hinj hnod) hmemmap
  · unfold listChildren
    refine List.pairwise_map.mpr ?_
    have hsort := List.sorted_mergeSort strLe_trans strLe_total (childNames b p)
    refine hsort.imp ?_
    intro a b hab
    exact of_decide_eq_true hab

/-- Witness for C8: two keys `d/x` and `d/y` under the root; the root
listing holds `(d, Directory)` exactly once and is sorted. -/
theorem listChildren_dir_once_sorted_witness :
    ((["d", "x"], Obj.mk [1] 0) ∈
      ([(["d", "x"], Obj.mk [1] 0), (["d", "y"], Obj.mk [2] 0)] : Bucket)) ∧
    ((["d", "y"], Obj.mk [2] 0) ∈
      ([(["d", "x"], Obj.mk [1] 0), (["d", "y"], Obj.mk [2] 0)] : Bucket)) ∧
    ((["d", "x"] : Key) ≠ ["d", "y"]) ∧
    underDir (([] : Key) ++ ["d"]) ["d", "x"] = true ∧
    underDir (([] : Key) ++ ["d"]) ["d", "y"] = true ∧
    (@List.count (String × NodeKind) instBEqOfDecidableEq
        (("d" : String), NodeKind.Directory)
        (listChildren [(["d", "x"], Obj.mk [1] 0), (["d", "y"], Obj.mk [2] 0)] []) = 1 ∧
      (listChildren [(["d", "x"], Obj.mk [1] 0), (["d", "y"], Obj.mk [2] 0)] []).Pairwise
        (fun x y => x.1 ≤ y.1)) :=
  ⟨by decide, by decide, by decide, by decide, by decide,
    listChildren_dir_once_sorted
      [(["d", "x"], Obj.mk [1] 0), (["d", "y"], Obj.mk [2] 0)] [] "d"
      (["d", "x"], Obj.mk [1] 0) (["d", "y"], Obj.mk [2] 0)
      (by decide) (by decide) (by decide) (by decide) (by decide)⟩
